import Mathlib

/-!
Shallow embedding of the session/call-signaling and event-reconciliation core
of the Harvest negotiation dashboard (frontend/src/app/page.tsx and its
variants).  Pure functions model the state updates performed by the React
event handlers; timers are modelled by explicit timestamps (milliseconds),
and the random entry ids (crypto.randomUUID) are dropped since no state
update ever inspects them.
-/

namespace Harvest

/-- A transcript entry as kept in the `transcripts` React state:
`{ id, agent, text }` with the random id dropped. -/
structure Entry where
  agent : String
  text : String
deriving DecidableEq, Repr

/-- The cap applied by every `setTranscripts` updater:
`next.length > 50 ? next.slice(-50) : next`. -/
def capTranscripts (next : List Entry) : List Entry :=
  if next.length > 50 then next.drop (next.length - 50) else next

/-- Appending one entry and capping, as in the SPEECH data-packet branch of
`onDataReceived` (page.tsx): `[...prev, entry]` then the 50-cap. -/
def appendCapped (l : List Entry) (e : Entry) : List Entry :=
  capTranscripts (l ++ [e])

/-- Folding a whole sequence of single-entry insertions into an initially
empty transcript buffer. -/
def insertAll (xs : List Entry) : List Entry :=
  xs.foldl appendCapped []

/-- Does an entry match a given (role, text) pair? -/
def matchesRT (e : Entry) (r t : String) : Bool :=
  e.agent == r && e.text == t

/-- Number of buffer entries with the given role and text. -/
def countEntries (l : List Entry) (r t : String) : Nat :=
  (l.filter (fun e => matchesRT e r t)).length

theorem capTranscripts_eq (next : List Entry) :
    capTranscripts next = next.drop (next.length - 50) := by
  unfold capTranscripts
  split
  · rfl
  · have h : next.length - 50 = 0 := by omega
    rw [h, List.drop_zero]

theorem appendCapped_eq (l : List Entry) (e : Entry) :
    appendCapped l e = l.drop (l.length + 1 - 50) ++ [e] := by
  unfold appendCapped
  rw [capTranscripts_eq, List.length_append]
  simp only [List.length_singleton]
  have h : l.length + 1 - 50 ≤ l.length := by omega
  rw [List.drop_append_of_le_length h]

theorem countEntries_append (l₁ l₂ : List Entry) (r t : String) :
    countEntries (l₁ ++ l₂) r t = countEntries l₁ r t + countEntries l₂ r t := by
  unfold countEntries
  rw [List.filter_append, List.length_append]

theorem countEntries_drop_le (l : List Entry) (k : Nat) (r t : String) :
    countEntries (l.drop k) r t ≤ countEntries l r t := by
  unfold countEntries
  exact ((List.drop_sublist k l).filter _).length_le

theorem countEntries_drop_zero (l : List Entry) (k : Nat) (r t : String)
    (h : countEntries l r t = 0) : countEntries (l.drop k) r t = 0 :=
  Nat.le_zero.mp (h ▸ countEntries_drop_le l k r t)

theorem countEntries_singleton_match (e : Entry) (r t : String)
    (h : matchesRT e r t = true) : countEntries [e] r t = 1 := by
  unfold countEntries
  simp [List.filter, h]

theorem countEntries_appendCapped_of_zero (l : List Entry) (e : Entry) (r t : String)
    (h0 : countEntries l r t = 0) (hm : matchesRT e r t = true) :
    countEntries (appendCapped l e) r t = 1 := by
  rw [appendCapped_eq, countEntries_append, countEntries_drop_zero l _ r t h0,
    countEntries_singleton_match e r t hm]

theorem countEntries_appendCapped_twice (l : List Entry) (e e' : Entry) (r t : String)
    (h0 : countEntries l r t = 0) (hm : matchesRT e r t = true)
    (hm' : matchesRT e' r t = true) :
    countEntries (appendCapped (appendCapped l e) e') r t = 2 := by
  rw [appendCapped_eq l e]
  set D := l.drop (l.length + 1 - 50) with hD
  have hD0 : countEntries D r t = 0 := countEntries_drop_zero l _ r t h0
  rw [appendCapped_eq]
  have hlen : (D ++ [e]).length + 1 - 50 ≤ D.length := by
    rw [List.length_append]; simp only [List.length_singleton]; omega
  rw [List.drop_append_of_le_length hlen, countEntries_append, countEntries_append,
    countEntries_drop_zero D _ r t hD0, countEntries_singleton_match e r t hm,
    countEntries_singleton_match e' r t hm']

/-- The buffer built from any insertion sequence is exactly the most recent
50 entries, in arrival order. -/
theorem foldl_appendCapped_eq (xs : List Entry) :
    ∀ (acc : List Entry), acc.length ≤ 50 →
      xs.foldl appendCapped acc = (acc ++ xs).drop (acc.length + xs.length - 50) := by
  induction xs with
  | nil =>
    intro acc hacc
    simp only [List.foldl_nil, List.append_nil, List.length_nil]
    have h : acc.length + 0 - 50 = 0 := by omega
    rw [h, List.drop_zero]
  | cons x xs ih =>
    intro acc hacc
    simp only [List.foldl_cons]
    have hstep : appendCapped acc x = (acc ++ [x]).drop (acc.length + 1 - 50) := by
      rw [appendCapped_eq]
      have h : acc.length + 1 - 50 ≤ acc.length := by omega
      rw [List.drop_append_of_le_length h]
    have hlen : (appendCapped acc x).length ≤ 50 := by
      rw [hstep, List.length_drop, List.length_append]
      simp only [List.length_singleton]; omega
    rw [ih _ hlen, hstep]
    have hle : acc.length + 1 - 50 ≤ (acc ++ [x]).length := by
      simp only [List.length_append, List.length_singleton]; omega
    have hsplit : List.drop (acc.length + 1 - 50) (acc ++ [x]) ++ xs
        = List.drop (acc.length + 1 - 50) ((acc ++ [x]) ++ xs) :=
      (List.drop_append_of_le_length hle).symm
    rw [hsplit, List.drop_drop]
    have hcat : (acc ++ [x]) ++ xs = acc ++ x :: xs := by simp
    rw [hcat]
    congr 1
    simp only [List.length_drop, List.length_append, List.length_singleton, List.length_cons,
      List.length_nil]
    omega

/-- JS `String.prototype.toLowerCase`, character by character. -/
def lowerString (s : String) : String :=
  ⟨s.data.map Char.toLower⟩

/-- JS `String.prototype.trim`: whitespace removed from both ends. -/
def trimString (s : String) : String :=
  ⟨((s.data.dropWhile Char.isWhitespace).reverse.dropWhile Char.isWhitespace).reverse⟩

/-- JS `String.prototype.startsWith`. -/
def strStartsWith (s sub : String) : Bool :=
  s.data.take sub.data.length == sub.data

/-- Trailing sentence punctuation stripped by the regex `[.!?]+$`. -/
def isSentencePunct (c : Char) : Bool :=
  c == '.' || c == '!' || c == '?'

/-- Drop the maximal trailing run of `.`, `!`, `?`, as `replace(/[.!?]+$/, "")`. -/
def stripTrailingPunct (s : String) : String :=
  ⟨(s.data.reverse.dropWhile isSentencePunct).reverse⟩

/-- `text.trim().toLowerCase().replace(/[.!?]+$/, "")` from both transcript paths. -/
def normalizeText (s : String) : String :=
  stripTrailingPunct (lowerString (trimString s))

/-- Dedup key: `speaker.toLowerCase() + ":" + normalizedText`. -/
def contentHash (speaker text : String) : String :=
  lowerString speaker ++ ":" ++ normalizeText text

/-- The `lastTranscriptHashes` set with its 5-second `setTimeout` deletions,
modelled as a list of (key, expiry) pairs: a key added at time `t` is a
member until its deletion fires at `t + 5000`. -/
def hashActive (hs : List (String × Nat)) (k : String) (now : Nat) : Bool :=
  hs.any (fun p => p.1 == k && decide (now < p.2))

/-- `lastTranscriptHashes.current.add(h)` together with
`setTimeout(() => delete(h), 5000)`. -/
def recordHash (hs : List (String × Nat)) (k : String) (now : Nat) :
    List (String × Nat) :=
  (k, now + 5000) :: hs

theorem hashActive_mono (hs : List (String × Nat)) (k : String) (n n' : Nat)
    (hle : n ≤ n') (h : hashActive hs k n = false) : hashActive hs k n' = false := by
  unfold hashActive at h ⊢
  rw [Bool.eq_false_iff] at h ⊢
  intro hx
  apply h
  rw [List.any_eq_true] at hx ⊢
  obtain ⟨p, hp, hpp⟩ := hx
  refine ⟨p, hp, ?_⟩
  rw [Bool.and_eq_true, decide_eq_true_eq] at hpp ⊢
  exact ⟨hpp.1, lt_of_le_of_lt hle hpp.2⟩

theorem hashActive_record_self (hs : List (String × Nat)) (k : String) (n n' : Nat)
    (hwin : n' < n + 5000) : hashActive (recordHash hs k n) k n' = true := by
  unfold hashActive recordHash
  rw [List.any_cons]
  simp [hwin]

theorem hashActive_record_expired (hs : List (String × Nat)) (k : String) (n n' : Nat)
    (hgap : n + 5000 ≤ n') (h : hashActive hs k n' = false) :
    hashActive (recordHash hs k n) k n' = false := by
  unfold hashActive at h ⊢
  unfold recordHash
  rw [List.any_cons]
  have : ¬ n' < n + 5000 := by omega
  simp [this, h]

/-- The call-signaling state union: `"idle" | "calling" | "ringing" | "connected"`. -/
inductive CallState
  | idle
  | calling
  | ringing
  | connected
deriving DecidableEq, Repr

/-- The structured contract terms carried by CONTRACT_PREVIEW / FILE_SHARED. -/
structure ContractData where
  buyer : String
  product : String
  price : String
  quantity : String
  delivery : String
  payment : String
deriving DecidableEq, Repr

/-- The `Contract` interface of page.tsx (pendingContract payload). -/
structure Contract where
  id : String
  title : String
  agent : String
  status : String
  contract_data : ContractData
deriving DecidableEq, Repr

/-- The `SharedFile` interface of page.tsx, with the display timestamp kept
as the arrival time in milliseconds. -/
structure SharedFile where
  name : String
  url : String
  fromAgent : String
  timestamp : Nat
  contract_data : ContractData
deriving DecidableEq, Repr

/-- A tactical thought (`Thought` interface), random id dropped. -/
structure Thought where
  agent : String
  text : String
deriving DecidableEq, Repr

/-- One caption segment of a TranscriptionReceived event: `{final, text}`. -/
structure Segment where
  final : Bool
  text : String
deriving DecidableEq, Repr

/-- The session state owned by the dashboard component of page.tsx.
`joinedRoom` records the `room_name` of the most recent token fetch
scheduled after a call-accept; `pendingSyncAt` is the fire time of the
pending SYNC_REQUEST debounce timer. -/
structure AppState where
  callState : CallState
  incomingCallFrom : Option String
  outgoingCallTo : Option String
  callStatus : String
  contractStatus : String
  pendingContract : Option Contract
  sharedFiles : List SharedFile
  thoughts : List Thought
  transcripts : List Entry
  hashes : List (String × Nat)
  joinedRoom : Option String
  lastRoomName : String
  pendingSyncAt : Option Nat
deriving DecidableEq, Repr

/-- The initial React state: everything idle and empty. -/
def initialAppState : AppState :=
  ⟨CallState.idle, none, none, "", "none", none, [], [], [], [], none, "", none⟩

/-- `resetNegotiationState`: clears thoughts and transcripts. -/
def resetNegotiationState (st : AppState) : AppState :=
  { st with thoughts := [], transcripts := [] }

/-- The decoded data-packet union handled by `onDataReceived` in page.tsx
(the event kinds the claims exercise). -/
inductive DataEvent
  | callOffer (fromP : String)
  | callAccepted (byP : String) (room : String)
  | callDeclined (byP : String)
  | contractIntent (agent : String)
  | contractPreview (contract_id : String) (title : String) (agent : String)
      (contract_data : ContractData)
  | contractApprovedEvt (contract_id : String)
  | contractRejectedEvt (contract_id : String) (reason : Option String)
  | fileShared (filename : String) (url : String) (fromP : String)
      (contract_data : ContractData)
  | speech (text : String) (speaker : Option String) (is_final : Option Bool)
deriving DecidableEq, Repr

/-- The SPEECH branch of `onDataReceived` (page.tsx lines 800-822):
`if (data.text && data.is_final !== false)`, speaker fallback
`data.speaker || agentName || "Agent"`, the content-hash dedup with its
5-second expiry, the buffer-wide exact (agent, text) duplicate check, and
the capped append. -/
def speechBranch (st : AppState) (now : Nat) (agentName : String)
    (text : String) (speaker : Option String) (is_final : Option Bool) : AppState :=
  if text != "" && is_final != some false then
    let spk := match speaker with
      | some s => if s != "" then s else (if agentName != "" then agentName else "Agent")
      | none => if agentName != "" then agentName else "Agent"
    let h := contentHash spk text
    if hashActive st.hashes h now then st
    else
      let hs := recordHash st.hashes h now
      if st.transcripts.any (fun t => t.text == text && t.agent == spk) then
        { st with hashes := hs }
      else
        { st with transcripts := appendCapped st.transcripts ⟨spk, text⟩, hashes := hs }
  else st

/-- `onDataReceived` (page.tsx lines 719-831), restricted to the state it
mutates; `agentName` is the role resolved from the sending participant. -/
def onDataReceived (st : AppState) (now : Nat) (agentName : String)
    (ev : DataEvent) : AppState :=
  match ev with
  | .callOffer fromP =>
      { st with incomingCallFrom := some fromP, callState := CallState.ringing }
  | .callAccepted _ room =>
      let st1 := resetNegotiationState { st with callState := CallState.connected }
      { st1 with joinedRoom := some room }
  | .callDeclined byP =>
      { st with callStatus := byP ++ " declined the call",
                callState := CallState.idle, outgoingCallTo := none }
  | .contractIntent agent =>
      if agent == "Halima" then { st with contractStatus := "drafting" } else st
  | .contractPreview contract_id title agent contract_data =>
      { st with
          pendingContract := some ⟨contract_id, title, agent, "pending_approval", contract_data⟩,
          contractStatus := "pending_approval" }
  | .contractApprovedEvt _ =>
      { st with contractStatus := "sent", pendingContract := none }
  | .contractRejectedEvt _ _ =>
      { st with contractStatus := "none", pendingContract := none }
  | .fileShared filename url fromP contract_data =>
      { st with
          sharedFiles := st.sharedFiles ++ [⟨filename, url, fromP, now, contract_data⟩],
          contractStatus := "received" }
  | .speech text speaker is_final => speechBranch st now agentName text speaker is_final

/-- `handleTranscription` (page.tsx lines 833-866): captions for the
recognized agents Halima/Alex are ignored wholesale; otherwise final
non-blank segments pass the shared content-hash dedup and are appended in
one capped batch.  The hash set is threaded through the batch in order,
exactly as the sequential `map` over `finalSegments` mutates it. -/
def handleTranscription (st : AppState) (now : Nat) (agentName : String)
    (segments : List Segment) : AppState :=
  if agentName == "Halima" || agentName == "Alex" then st
  else
    let finalSegments := segments.filter (fun s => s.final && trimString s.text != "")
    if finalSegments.isEmpty then st
    else
      let r := finalSegments.foldl
        (fun (acc : List Entry × List (String × Nat)) s =>
          let h := contentHash agentName s.text
          if hashActive acc.2 h now then acc
          else (acc.1 ++ [Entry.mk agentName s.text], recordHash acc.2 h now))
        ([], st.hashes)
      if r.1.isEmpty then { st with hashes := r.2 }
      else { st with transcripts := capTranscripts (st.transcripts ++ r.1), hashes := r.2 }

theorem any_rt_iff (l : List Entry) (r t : String) :
    (l.any fun e => e.text == t && e.agent == r) = false ↔ countEntries l r t = 0 := by
  unfold countEntries
  rw [List.length_eq_zero, List.filter_eq_nil_iff, List.any_eq_false]
  constructor
  · intro h e he
    have := h e he
    unfold matchesRT
    rw [Bool.and_comm]
    exact this
  · intro h e he
    have := h e he
    unfold matchesRT at this
    rw [Bool.and_comm] at this
    exact this

theorem speechBranch_append (st : AppState) (now : Nat) (aname role text : String)
    (hrole : role ≠ "") (htext : text ≠ "")
    (hkey : hashActive st.hashes (contentHash role text) now = false)
    (hbuf : countEntries st.transcripts role text = 0) :
    speechBranch st now aname text (some role) none
      = { st with transcripts := appendCapped st.transcripts ⟨role, text⟩,
                  hashes := recordHash st.hashes (contentHash role text) now } := by
  have hbuf' : (st.transcripts.any fun t => t.text == text && t.agent == role) = false :=
    (any_rt_iff st.transcripts role text).mpr hbuf
  unfold speechBranch
  simp [htext, hrole, hkey, hbuf']

theorem speechBranch_hashHit (st : AppState) (now : Nat) (aname role text : String)
    (hrole : role ≠ "") (htext : text ≠ "")
    (hkey : hashActive st.hashes (contentHash role text) now = true) :
    speechBranch st now aname text (some role) none = st := by
  unfold speechBranch
  simp [htext, hrole, hkey]

theorem speechBranch_bufferHit (st : AppState) (now : Nat) (aname role text : String)
    (hrole : role ≠ "") (htext : text ≠ "")
    (hkey : hashActive st.hashes (contentHash role text) now = false)
    (hbuf : countEntries st.transcripts role text ≠ 0) :
    speechBranch st now aname text (some role) none
      = { st with hashes := recordHash st.hashes (contentHash role text) now } := by
  have hbuf' : (st.transcripts.any fun t => t.text == text && t.agent == role) = true := by
    rcases Bool.eq_false_or_eq_true
      (st.transcripts.any fun t => t.text == text && t.agent == role) with h | h
    · exact h
    · exact absurd ((any_rt_iff st.transcripts role text).mp h) hbuf
  unfold speechBranch
  simp [htext, hrole, hkey, hbuf']

theorem handleTranscription_knownAgent (st : AppState) (now : Nat) (agentName : String)
    (segments : List Segment) (h : agentName = "Halima" ∨ agentName = "Alex") :
    handleTranscription st now agentName segments = st := by
  unfold handleTranscription
  rcases h with h | h <;> simp [h]

theorem handleTranscription_single_append (st : AppState) (now : Nat) (a text : String)
    (ha : (a == "Halima" || a == "Alex") = false) (htrim : trimString text ≠ "")
    (hkey : hashActive st.hashes (contentHash a text) now = false) :
    handleTranscription st now a [⟨true, text⟩]
      = { st with transcripts := appendCapped st.transcripts ⟨a, text⟩,
                  hashes := recordHash st.hashes (contentHash a text) now } := by
  have ht : (trimString text != "") = true := by simp [htrim]
  unfold handleTranscription appendCapped
  simp [ha, ht, hkey, List.filter]

theorem handleTranscription_single_hashHit (st : AppState) (now : Nat) (a text : String)
    (ha : (a == "Halima" || a == "Alex") = false) (htrim : trimString text ≠ "")
    (hkey : hashActive st.hashes (contentHash a text) now = true) :
    handleTranscription st now a [⟨true, text⟩] = st := by
  have ht : (trimString text != "") = true := by simp [htrim]
  unfold handleTranscription
  simp [ha, ht, hkey, List.filter]

/-- The body POSTed to `/call/offer`; it has no room field: the offering
side never supplies a room identifier. -/
structure CallOfferRequest where
  from_persona : String
  to_persona : String
deriving DecidableEq, Repr

/-- The body POSTed to `/call/accept`, carrying the meeting id minted by
the accepting side (`harvest_deal_${random}`). -/
structure CallAcceptRequest where
  from_persona : String
  to_persona : String
  meeting_id : String
deriving DecidableEq, Repr

/-- Result of the `/call/offer` POST as interpreted by `initiateCall`. -/
inductive OfferResponse
  | okSent
  | offline
  | failed
deriving DecidableEq, Repr

/-- The synchronous head of `initiateCall` (page.tsx lines 319-324):
`setCallState("calling"); setOutgoingCallTo(toPersona)` and the POST body. -/
def initiateCallStart (st : AppState) (persona : String) : AppState × CallOfferRequest :=
  let toPersona := if persona == "Halima" then "Alex" else "Halima"
  ({ st with callState := CallState.calling, outgoingCallTo := some toPersona },
   ⟨persona, toPersona⟩)

/-- Outcome of handling the `/call/offer` response: the new state, the
status messages surfaced, and the delays (ms) of the scheduled
status-clearing timers. -/
structure OfferOutcome where
  state : AppState
  surfaced : List String
  clearAfterMs : List Nat
deriving DecidableEq, Repr

/-- The response/catch handling of `initiateCall` (page.tsx lines 335-355):
`status === "offline"` surfaces one transient message, reverts to idle and
schedules one 3000 ms clear; a fetch/HTTP failure reverts silently. -/
def handleOfferResponse (st : AppState) (toPersona : String)
    (resp : OfferResponse) : OfferOutcome :=
  match resp with
  | .offline =>
      let msg := toPersona ++ " is offline"
      ⟨{ st with callStatus := msg, callState := CallState.idle, outgoingCallTo := none },
       [msg], [3000]⟩
  | .okSent => ⟨st, [], []⟩
  | .failed =>
      ⟨{ st with callState := CallState.idle, outgoingCallTo := none }, [], []⟩

/-- `setTimeout(() => setCallStatus(""), 3000)` firing. -/
def clearCallStatus (st : AppState) : AppState :=
  { st with callStatus := "" }

/-- The guard and POST body of `acceptCall` (page.tsx lines 358-372): with
an incoming caller recorded, send `/call/accept` carrying the locally
minted meeting id. -/
def acceptCallSend (st : AppState) (persona mintedMeetingId : String) :
    Option CallAcceptRequest :=
  st.incomingCallFrom.map (fun f => ⟨f, persona, mintedMeetingId⟩)

/-- The response handling of `acceptCall` (page.tsx lines 376-386): set
connected, reset negotiation state, and schedule rejoining under the room
returned by the server. -/
def acceptCallOnResponse (st : AppState) (responseRoom : String) : AppState :=
  let st1 := resetNegotiationState { st with callState := CallState.connected }
  { st1 with joinedRoom := some responseRoom }

/-- Modelled from the spec: the `/call/accept` backend endpoint is not under
src/; per the spec the room identifier is always minted by the accepting
party and propagated in the call-accept event, so the relay answers with
the minted meeting id as the room and broadcasts `CALL_ACCEPTED{by, room}`
carrying that same identifier. -/
def backendAcceptRelay (req : CallAcceptRequest) : DataEvent × String :=
  (DataEvent.callAccepted req.to_persona req.meeting_id, req.meeting_id)

/-- Outbound data packets published by the client handlers the claims
exercise. -/
inductive Outbound
  | syncRequest
  | contractApproved (contract_id : String)
  | contractRejected (contract_id : String) (reason : String)
deriving DecidableEq, Repr

/-- `approveContract` (page.tsx lines 899-907): guarded on a pending
contract; publishes CONTRACT_APPROVED and moves the local status to sent. -/
def approveContract (st : AppState) : AppState × List Outbound :=
  match st.pendingContract with
  | none => (st, [])
  | some c =>
      ({ st with contractStatus := "sent", pendingContract := none },
       [Outbound.contractApproved c.id])

/-- `rejectContract` (page.tsx lines 909-917): publishes CONTRACT_REJECTED
with the reason passed through and resets the local status to none. -/
def rejectContract (st : AppState) (reason : String) : AppState × List Outbound :=
  match st.pendingContract with
  | none => (st, [])
  | some c =>
      ({ st with contractStatus := "none", pendingContract := none },
       [Outbound.contractRejected c.id reason])

/-- The negotiation_timeline progress computation of the variants
(`const progress = (data.round / data.max_rounds) * 100`), over exact
rationals. -/
def negotiationProgressOf (round maxRounds : ℚ) : ℚ :=
  round / maxRounds * 100

/-- Modelled from the spec's words only, for comparison with the source
computation: the progress value clamped to the range 0-100. -/
def clampedProgress (round maxRounds : ℚ) : ℚ :=
  max 0 (min (round / maxRounds * 100) 100)

/-- One remote peer as the identity resolver sees it: transport identity,
the persona parsed from its metadata JSON (none when absent or
unparseable), and the optional display name. -/
structure Peer where
  identity : String
  metaPersona : Option String
  name : Option String
deriving DecidableEq, Repr

/-- JS `String.prototype.includes`: substring containment. -/
def strContains (s sub : String) : Bool :=
  (List.range (s.data.length + 1)).any
    (fun i => (s.data.drop i).take sub.data.length == sub.data)

/-- The agent-track filter of page.tsx (line 641): identities starting with
`agent-`, containing `-worker`, or starting with `aj_` qualify. -/
def isAgentIdentity (id : String) : Bool :=
  strStartsWith (lowerString id) "agent-" || strContains (lowerString id) "-worker"
    || strStartsWith (lowerString id) "aj_"

/-- Per-peer name resolution of `participantToAgent` (page.tsx lines
650-672): metadata persona first, then identity-substring fallback
(halima/juma aliases to Halima, alex to Alex), empty when unresolved. -/
def resolveAgentName (p : Peer) : String :=
  let metaName := match p.metaPersona with
    | some s => if s != "" then s else ""
    | none => ""
  if metaName != "" then metaName
  else
    let id := lowerString p.identity
    if strContains id "halima" || strContains id "juma" then "Halima"
    else if strContains id "alex" then "Alex"
    else ""

/-- JS `Map.set` on an association list: later sets shadow earlier ones. -/
def mapSet (m : List (String × String)) (k v : String) : List (String × String) :=
  (k, v) :: m

/-- JS `Map.get`. -/
def mapGet (m : List (String × String)) (k : String) : Option String :=
  (m.find? (fun kv => kv.1 == k)).map (fun kv => kv.2)

/-- `participantToAgent` (page.tsx lines 647-676): rebuild the map from the
qualifying agent peers, inserting each peer whose resolution is non-empty. -/
def participantToAgent (peers : List Peer) : List (String × String) :=
  peers.foldl
    (fun m p =>
      let name := resolveAgentName p
      if name != "" then mapSet m p.identity name else m)
    []

/-- `participantToAgent` of the part_000/part_001 variants (positional):
first agent track is Halima, second is Alex; a single track is Halima. -/
def participantToAgentPositional (agentIds : List String) : List (String × String) :=
  match agentIds with
  | a :: b :: _ => [(a, "Halima"), (b, "Alex")]
  | [a] => [(a, "Halima")]
  | [] => []

/-- `sendSyncRequest` (page.tsx lines 685-702): clear any pending debounce
timer and arm a fresh one 1500 ms out. -/
def sendSyncRequest (_pendingSyncAt : Option Nat) (now : Nat) : Option Nat :=
  some (now + 1500)

/-- The new-room check of the connection effect (page.tsx lines 704-709):
on a connected room whose name differs from the tracked one, clear the
transcripts, track the new name, and (re)arm the sync debounce. -/
def roomSwitchCheck (st : AppState) (roomName : String) (connected : Bool)
    (now : Nat) : AppState :=
  if connected && st.lastRoomName != roomName then
    { st with transcripts := [], lastRoomName := roomName,
              pendingSyncAt := sendSyncRequest st.pendingSyncAt now }
  else st

/-- Number of debounce timers that actually fire for a monotone sequence of
trigger times: each trigger cancels the pending timer, so a timer fires only
when the next trigger is at least 1500 ms later (or there is none). -/
def debounceFires : List Nat → Nat
  | [] => 0
  | [_] => 1
  | a :: b :: rest => (if b < a + 1500 then 0 else 1) + debounceFires (b :: rest)

/-- Every debounce timer that fires publishes one
`{ type: "SYNC_REQUEST" }` packet on the reliable channel. -/
def syncRequestsSent (triggers : List Nat) : List Outbound :=
  List.replicate (debounceFires triggers) Outbound.syncRequest

/-- Are all consecutive trigger gaps inside the 1500 ms debounce window? -/
def allWithinWindow : List Nat → Bool
  | [] => true
  | [_] => true
  | a :: b :: rest => decide (b < a + 1500) && allWithinWindow (b :: rest)

/-- The last (and hence surviving) map contribution for a given key over a
peer list: later peers shadow earlier ones, peers resolving to the empty
name contribute nothing. -/
def lastSet : List Peer → String → Option String
  | [], _ => none
  | p :: ps, k =>
      match lastSet ps k with
      | some v => some v
      | none =>
          if p.identity == k && resolveAgentName p != "" then
            some (resolveAgentName p)
          else none

theorem mapGet_mapSet (m : List (String × String)) (k v k' : String) :
    mapGet (mapSet m k v) k' = if k == k' then some v else mapGet m k' := by
  unfold mapGet mapSet
  by_cases h : (k == k') = true
  · rw [List.find?_cons_of_pos _ (by simpa using h)]
    simp [h]
  · have h' : ¬ ((k, v).1 == k') = true := by simpa using h
    rw [List.find?_cons_of_neg m h']
    simp [h]

theorem mapGet_foldl (ps : List Peer) :
    ∀ (m : List (String × String)) (k : String),
      mapGet (ps.foldl
        (fun m p =>
          let name := resolveAgentName p
          if name != "" then mapSet m p.identity name else m) m) k
      = match lastSet ps k with
        | some v => some v
        | none => mapGet m k := by
  induction ps with
  | nil => intro m k; rfl
  | cons p ps ih =>
    intro m k
    rw [List.foldl_cons, ih]
    cases hL : lastSet ps k with
    | some v => rw [lastSet]; rw [hL]
    | none =>
      rw [lastSet, hL]
      by_cases hname : resolveAgentName p != ""
      · simp only [hname, if_true]
        rw [mapGet_mapSet]
        by_cases hid : p.identity == k
        · simp [hid, hname]
        · have hid' : (p.identity == k) = false := by simp_all
          simp [hid', hname]
      · have hname' : (resolveAgentName p != "") = false := by simp_all
        simp [hname']

theorem lastSet_of_uniq (P : Peer) :
    ∀ (ps : List Peer), (∀ Q ∈ ps, Q.identity = P.identity → Q = P) →
      lastSet ps P.identity
        = if P ∈ ps ∧ resolveAgentName P ≠ "" then some (resolveAgentName P) else none := by
  intro ps
  induction ps with
  | nil => intro _; simp [lastSet]
  | cons p ps ih =>
    intro h
    have hps : ∀ Q ∈ ps, Q.identity = P.identity → Q = P := by
      intro Q hQ; exact h Q (List.mem_cons_of_mem p hQ)
    rw [lastSet, ih hps]
    by_cases hmem : P ∈ ps
    · by_cases hname : resolveAgentName P ≠ ""
      · simp [hmem, hname, List.mem_cons]
      · simp only [hmem, hname, and_false, if_neg, not_false_iff, and_true]
        by_cases hpid : p.identity == P.identity
        · have : p = P := h p (List.mem_cons_self p ps) (by simpa using hpid)
          subst this
          have : (resolveAgentName p != "") = false := by simp_all
          simp [this, List.mem_cons, hmem]
        · have hpid' : (p.identity == P.identity) = false := by simp_all
          simp [hpid', List.mem_cons, hmem, hname]
    · simp only [hmem, false_and, if_neg, not_false_iff]
      by_cases hpid : p.identity == P.identity
      · have hpP : p = P := h p (List.mem_cons_self p ps) (by simpa using hpid)
        subst hpP
        by_cases hname : resolveAgentName p ≠ ""
        · simp [hpid, hname, List.mem_cons]
        · have : (resolveAgentName p != "") = false := by simp_all
          simp [this, List.mem_cons, hmem, hname]
      · have hpid' : (p.identity == P.identity) = false := by simp_all
        have hPp : P ≠ p := by
          intro hE
          rw [hE] at hpid'
          simp at hpid'
        simp [hpid', List.mem_cons, hmem, hPp]

theorem debounceFires_within :
    ∀ ts : List Nat, ts ≠ [] → allWithinWindow ts = true → debounceFires ts = 1 := by
  intro ts
  induction ts with
  | nil => intro h; exact absurd rfl h
  | cons a rest ih =>
    intro _ hw
    cases rest with
    | nil => rfl
    | cons b rest2 =>
      rw [debounceFires]
      unfold allWithinWindow at hw
      rw [Bool.and_eq_true, decide_eq_true_eq] at hw
      rw [ih (by simp) hw.2]
      simp [hw.1]

/-- Claim C3 counterexample: the derived negotiation progress is not
clamped to 0-100; at round 9 of max 8 the code yields 112.5 while the
clamped value would be 100. -/
theorem progress_counterexample :
    negotiationProgressOf 9 8 = 225 / 2
    ∧ clampedProgress 9 8 = 100
    ∧ negotiationProgressOf 9 8 ≠ clampedProgress 9 8 := by
  refine ⟨by norm_num [negotiationProgressOf], by norm_num [clampedProgress], ?_⟩
  norm_num [negotiationProgressOf, clampedProgress]

/-- Claim C3 (amended): progress is computed as `round / max_rounds * 100`
with no clamping; in particular round 4 of 8 gives 50, round 8 of 8 gives
100, and round 9 of 8 exceeds 100. -/
theorem progress_amended :
    negotiationProgressOf 4 8 = 50
    ∧ negotiationProgressOf 8 8 = 100
    ∧ negotiationProgressOf 9 8 = 225 / 2
    ∧ 100 < negotiationProgressOf 9 8 := by
  refine ⟨by norm_num [negotiationProgressOf], by norm_num [negotiationProgressOf],
    by norm_num [negotiationProgressOf], by norm_num [negotiationProgressOf]⟩

/-- Claim C4: any sequence of insertions leaves the buffer holding exactly
the most recent 50 entries in arrival order — so the buffer never exceeds
50 entries, eviction is oldest-first, surviving entries keep their order,
and 60 distinct insertions leave the final 50. -/
theorem bounded_buffer (xs : List Entry) :
    insertAll xs = xs.drop (xs.length - 50)
    ∧ (insertAll xs).length = min xs.length 50
    ∧ (insertAll xs).length ≤ 50
    ∧ (xs.length = 60 → insertAll xs = xs.drop 10) := by
  have h : insertAll xs = xs.drop (xs.length - 50) := by
    unfold insertAll
    rw [foldl_appendCapped_eq xs [] (by simp)]
    simp
  refine ⟨h, ?_, ?_, ?_⟩
  · rw [h, List.length_drop]; omega
  · rw [h, List.length_drop]; omega
  · intro h60; rw [h, h60]

/-- Claim C7: an offline response to `initiateCall` moves the call state
from Calling back to Idle, clears the outgoing-call record, surfaces
exactly one transient status message, and schedules its auto-clear 3000 ms
later. -/
theorem offline_rejection (st : AppState) (persona : String) :
    ((initiateCallStart st persona).1.callState = CallState.calling)
    ∧ (handleOfferResponse (initiateCallStart st persona).1
        (initiateCallStart st persona).2.to_persona OfferResponse.offline).state.callState
        = CallState.idle
    ∧ (handleOfferResponse (initiateCallStart st persona).1
        (initiateCallStart st persona).2.to_persona OfferResponse.offline).state.outgoingCallTo
        = none
    ∧ (handleOfferResponse (initiateCallStart st persona).1
        (initiateCallStart st persona).2.to_persona OfferResponse.offline).surfaced
        = [(initiateCallStart st persona).2.to_persona ++ " is offline"]
    ∧ (handleOfferResponse (initiateCallStart st persona).1
        (initiateCallStart st persona).2.to_persona OfferResponse.offline).surfaced.length = 1
    ∧ (handleOfferResponse (initiateCallStart st persona).1
        (initiateCallStart st persona).2.to_persona OfferResponse.offline).clearAfterMs
        = [3000]
    ∧ (clearCallStatus (handleOfferResponse (initiateCallStart st persona).1
        (initiateCallStart st persona).2.to_persona OfferResponse.offline).state).callStatus
        = "" :=
  ⟨rfl, rfl, rfl, rfl, rfl, rfl, rfl⟩

/-- Claim C8: the contract sub-machine on the scenario events — intent by
Halima takes none to drafting; a preview with contract id c1 takes drafting
to pending_approval recording that id; a local approve moves to sent with
the pending contract cleared; alternatively a local reject returns to none
and passes the reason through in the published CONTRACT_REJECTED packet. -/
theorem contract_flow (st : AppState) (now : Nat) (aname title agent reason : String)
    (cdata : ContractData) :
    ((onDataReceived { st with contractStatus := "none", pendingContract := none }
        now aname (DataEvent.contractIntent "Halima")).contractStatus = "drafting")
    ∧ ((onDataReceived (onDataReceived
          { st with contractStatus := "none", pendingContract := none }
          now aname (DataEvent.contractIntent "Halima"))
        now aname (DataEvent.contractPreview "c1" title agent cdata)).contractStatus
        = "pending_approval")
    ∧ ((onDataReceived (onDataReceived
          { st with contractStatus := "none", pendingContract := none }
          now aname (DataEvent.contractIntent "Halima"))
        now aname (DataEvent.contractPreview "c1" title agent cdata)).pendingContract
        = some ⟨"c1", title, agent, "pending_approval", cdata⟩)
    ∧ ((approveContract (onDataReceived (onDataReceived
          { st with contractStatus := "none", pendingContract := none }
          now aname (DataEvent.contractIntent "Halima"))
        now aname (DataEvent.contractPreview "c1" title agent cdata))).1.contractStatus
        = "sent")
    ∧ ((approveContract (onDataReceived (onDataReceived
          { st with contractStatus := "none", pendingContract := none }
          now aname (DataEvent.contractIntent "Halima"))
        now aname (DataEvent.contractPreview "c1" title agent cdata))).1.pendingContract
        = none)
    ∧ ((approveContract (onDataReceived (onDataReceived
          { st with contractStatus := "none", pendingContract := none }
          now aname (DataEvent.contractIntent "Halima"))
        now aname (DataEvent.contractPreview "c1" title agent cdata))).2
        = [Outbound.contractApproved "c1"])
    ∧ ((rejectContract (onDataReceived (onDataReceived
          { st with contractStatus := "none", pendingContract := none }
          now aname (DataEvent.contractIntent "Halima"))
        now aname (DataEvent.contractPreview "c1" title agent cdata)) reason).1.contractStatus
        = "none")
    ∧ ((rejectContract (onDataReceived (onDataReceived
          { st with contractStatus := "none", pendingContract := none }
          now aname (DataEvent.contractIntent "Halima"))
        now aname (DataEvent.contractPreview "c1" title agent cdata)) reason).1.pendingContract
        = none)
    ∧ ((rejectContract (onDataReceived (onDataReceived
          { st with contractStatus := "none", pendingContract := none }
          now aname (DataEvent.contractIntent "Halima"))
        now aname (DataEvent.contractPreview "c1" title agent cdata)) reason).2
        = [Outbound.contractRejected "c1" reason]) :=
  ⟨rfl, rfl, rfl, rfl, rfl, rfl, rfl, rfl, rfl⟩

/-- Claim C10: a captioning transcription whose participant resolves to the
recognized agents Halima or Alex leaves the session state — in particular
the transcript buffer — completely unchanged; caption segments only ever
contribute entries for unrecognized agents. -/
theorem captioning_frame_effect (st : AppState) (now : Nat) (agentName : String)
    (segments : List Segment) (h : agentName = "Halima" ∨ agentName = "Alex") :
    handleTranscription st now agentName segments = st :=
  handleTranscription_knownAgent st now agentName segments h

theorem captioning_frame_effect_witness :
    ("Halima" = "Halima" ∨ "Halima" = "Alex")
    ∧ handleTranscription initialAppState 0 "Halima" [⟨true, "hello"⟩] = initialAppState :=
  ⟨Or.inl rfl,
   captioning_frame_effect initialAppState 0 "Halima" [⟨true, "hello"⟩] (Or.inl rfl)⟩

theorem bounded_buffer_witness :
    ((List.range 60).map (fun i => Entry.mk "Halima" (toString i))).length = 60
    ∧ insertAll ((List.range 60).map (fun i => Entry.mk "Halima" (toString i)))
        = ((List.range 60).map (fun i => Entry.mk "Halima" (toString i))).drop 10 :=
  ⟨by decide,
   (bounded_buffer ((List.range 60).map (fun i => Entry.mk "Halima" (toString i)))).2.2.2
     (by decide)⟩

/-- Claim C2: after `initiateCall` the offerer is Calling; on receiving
`CALL_ACCEPTED{room = X}` it becomes Connected and rejoins under exactly
the room X carried by the event — for any local state, the joined room is
the event's room, so the offering party never mints its own identifier;
and the accepting side sends exactly its locally minted meeting id, which
the (spec-modelled) relay propagates as that room. -/
theorem signaling_symmetry (stA stB : AppState) (personaA personaB f minted roomX byP : String)
    (now : Nat) (aname : String) :
    ((initiateCallStart stA personaA).1.callState = CallState.calling)
    ∧ ((onDataReceived (initiateCallStart stA personaA).1 now aname
        (DataEvent.callAccepted byP roomX)).callState = CallState.connected)
    ∧ ((onDataReceived (initiateCallStart stA personaA).1 now aname
        (DataEvent.callAccepted byP roomX)).joinedRoom = some roomX)
    ∧ (∀ st' : AppState,
        (onDataReceived st' now aname (DataEvent.callAccepted byP roomX)).joinedRoom
          = some roomX)
    ∧ (acceptCallSend { stB with incomingCallFrom := some f } personaB minted
        = some ⟨f, personaB, minted⟩)
    ∧ ((backendAcceptRelay ⟨f, personaB, minted⟩).1
        = DataEvent.callAccepted personaB minted)
    ∧ ((acceptCallOnResponse stB (backendAcceptRelay ⟨f, personaB, minted⟩).2).callState
        = CallState.connected)
    ∧ ((acceptCallOnResponse stB (backendAcceptRelay ⟨f, personaB, minted⟩).2).joinedRoom
        = some minted) :=
  ⟨rfl, rfl, rfl, fun _ => rfl, rfl, rfl, rfl, rfl⟩

/-- Claim C9: connecting to room call-deal-2 after presence-room clears the
transcript buffer, tracks the new room, and arms the sync debounce; a lone
trigger fires one SYNC_REQUEST, and any run of triggers whose consecutive
gaps all sit inside the 1500 ms debounce window coalesces to exactly one
SYNC_REQUEST. -/
theorem session_reset_sync (st : AppState) (now : Nat) :
    ((roomSwitchCheck { st with lastRoomName := "presence-room" } "call-deal-2" true now).transcripts
      = [])
    ∧ ((roomSwitchCheck { st with lastRoomName := "presence-room" } "call-deal-2" true now).lastRoomName
      = "call-deal-2")
    ∧ ((roomSwitchCheck { st with lastRoomName := "presence-room" } "call-deal-2" true now).pendingSyncAt
      = some (now + 1500))
    ∧ (∀ t : Nat, syncRequestsSent [t] = [Outbound.syncRequest])
    ∧ (∀ ts : List Nat, ts ≠ [] → allWithinWindow ts = true →
        syncRequestsSent ts = [Outbound.syncRequest]) := by
  refine ⟨rfl, rfl, rfl, fun t => rfl, fun ts hne hw => ?_⟩
  unfold syncRequestsSent
  rw [debounceFires_within ts hne hw]
  rfl

theorem session_reset_sync_witness :
    ((roomSwitchCheck { initialAppState with lastRoomName := "presence-room" }
        "call-deal-2" true 0).transcripts = [])
    ∧ ([0, 100, 200] ≠ ([] : List Nat))
    ∧ (allWithinWindow [0, 100, 200] = true)
    ∧ (syncRequestsSent [0, 100, 200] = [Outbound.syncRequest]) :=
  ⟨(session_reset_sync initialAppState 0).1, by decide, by decide,
   (session_reset_sync initialAppState 0).2.2.2.2 [0, 100, 200] (by decide) (by decide)⟩

/-- Claim C6 counterexample: under the positional variant of
`participantToAgent` (part_000/part_001), a peer mapped to Halima while it
is the only agent track is remapped to Alex once another track is listed
before it — the mapping is reassigned mid-session with the peer still
present. -/
theorem identity_stability_counterexample :
    mapGet (participantToAgentPositional ["agent-aw1"]) "agent-aw1" = some "Halima"
    ∧ mapGet (participantToAgentPositional ["agent-bx2", "agent-aw1"]) "agent-aw1"
        = some "Alex"
    ∧ ("Halima" : String) ≠ "Alex" := by
  refine ⟨by decide, by decide, by decide⟩

/-- Claim C6 (amended): for the metadata/identity resolver of page.tsx a
peer's mapping depends only on the peer's own attributes, so any
recomputation over a peer set that still contains the (unchanged) peer —
whatever other peers arrive, leave, or claim — maps it to the same role;
the positional variants do not enjoy this stability. -/
theorem identity_stability_amended (peers peers2 : List Peer) (P : Peer) (R : String)
    (h1 : ∀ Q ∈ peers, Q.identity = P.identity → Q = P)
    (h2 : ∀ Q ∈ peers2, Q.identity = P.identity → Q = P)
    (hmem : P ∈ peers2)
    (hR : mapGet (participantToAgent peers) P.identity = some R) :
    mapGet (participantToAgent peers2) P.identity = some R := by
  have key : ∀ ps : List Peer, (∀ Q ∈ ps, Q.identity = P.identity → Q = P) →
      mapGet (participantToAgent ps) P.identity
        = if P ∈ ps ∧ resolveAgentName P ≠ "" then some (resolveAgentName P) else none := by
    intro ps hps
    unfold participantToAgent
    rw [mapGet_foldl ps [] P.identity, lastSet_of_uniq P ps hps]
    by_cases hc : P ∈ ps ∧ resolveAgentName P ≠ ""
    · simp [hc]
    · simp [hc, mapGet]
  rw [key peers h1] at hR
  rw [key peers2 h2]
  by_cases hname : resolveAgentName P ≠ ""
  · by_cases hmem1 : P ∈ peers
    · simp only [hmem1, hname, and_self, if_true] at hR
      simp only [hmem, hname, and_self, if_true]
      exact hR
    · simp [hmem1] at hR
  · simp [hname] at hR

theorem identity_stability_amended_witness :
    (mapGet (participantToAgent [⟨"agent-x1", some "Halima", none⟩]) "agent-x1"
      = some "Halima")
    ∧ (mapGet (participantToAgent
        [⟨"agent-x1", some "Halima", none⟩, ⟨"agent-y2", some "Halima", none⟩]) "agent-x1"
      = some "Halima") :=
  ⟨by decide,
   identity_stability_amended
     [⟨"agent-x1", some "Halima", none⟩]
     [⟨"agent-x1", some "Halima", none⟩, ⟨"agent-y2", some "Halima", none⟩]
     ⟨"agent-x1", some "Halima", none⟩ "Halima"
     (by decide) (by decide) (by decide) (by decide)⟩

/-- Claim C1: a finalized utterance submitted once through the reliable
SPEECH data-packet path and once through the captioning path, in either
order, with both arrivals inside the 5-second dedup window, leaves exactly
one transcript entry with that role and text: the duplicate is suppressed
(for unrecognized roles by the shared lowercase-role + normalized-text key;
for the recognized agents the captioning path is skipped wholesale). -/
theorem dedup_idempotence (st : AppState) (now1 now2 : Nat) (role text aname : String)
    (hrole : role ≠ "") (htext : text ≠ "") (htrim : trimString text ≠ "")
    (hkey : hashActive st.hashes (contentHash role text) now1 = false)
    (hbuf : countEntries st.transcripts role text = 0)
    (h12 : now1 ≤ now2) (hwin : now2 < now1 + 5000) :
    countEntries (handleTranscription
        (onDataReceived st now1 aname (DataEvent.speech text (some role) none))
        now2 role [⟨true, text⟩]).transcripts role text = 1
    ∧ countEntries (onDataReceived
        (handleTranscription st now1 role [⟨true, text⟩])
        now2 aname (DataEvent.speech text (some role) none)).transcripts role text = 1 := by
  have hm : matchesRT (Entry.mk role text) role text = true := by simp [matchesRT]
  have hcount1 : countEntries (appendCapped st.transcripts ⟨role, text⟩) role text = 1 :=
    countEntries_appendCapped_of_zero _ _ _ _ hbuf hm
  constructor
  · have hsp : onDataReceived st now1 aname (DataEvent.speech text (some role) none)
        = { st with transcripts := appendCapped st.transcripts ⟨role, text⟩,
                    hashes := recordHash st.hashes (contentHash role text) now1 } :=
      speechBranch_append st now1 aname role text hrole htext hkey hbuf
    rw [hsp]
    by_cases hknown : role = "Halima" ∨ role = "Alex"
    · rw [handleTranscription_knownAgent _ now2 role _ hknown]
      exact hcount1
    · have ha : (role == "Halima" || role == "Alex") = false := by
        rw [not_or] at hknown
        simp [hknown.1, hknown.2]
      have hk2 : hashActive (recordHash st.hashes (contentHash role text) now1)
          (contentHash role text) now2 = true :=
        hashActive_record_self _ _ _ _ hwin
      rw [handleTranscription_single_hashHit _ now2 role text ha htrim hk2]
      exact hcount1
  · by_cases hknown : role = "Halima" ∨ role = "Alex"
    · rw [handleTranscription_knownAgent st now1 role _ hknown]
      have hkey2 : hashActive st.hashes (contentHash role text) now2 = false :=
        hashActive_mono _ _ _ _ h12 hkey
      have hsp : onDataReceived st now2 aname (DataEvent.speech text (some role) none)
          = { st with transcripts := appendCapped st.transcripts ⟨role, text⟩,
                      hashes := recordHash st.hashes (contentHash role text) now2 } :=
        speechBranch_append st now2 aname role text hrole htext hkey2 hbuf
      rw [hsp]
      exact hcount1
    · have ha : (role == "Halima" || role == "Alex") = false := by
        rw [not_or] at hknown
        simp [hknown.1, hknown.2]
      have hcap : handleTranscription st now1 role [⟨true, text⟩]
          = { st with transcripts := appendCapped st.transcripts ⟨role, text⟩,
                      hashes := recordHash st.hashes (contentHash role text) now1 } :=
        handleTranscription_single_append st now1 role text ha htrim hkey
      rw [hcap]
      have hk2 : hashActive (recordHash st.hashes (contentHash role text) now1)
          (contentHash role text) now2 = true :=
        hashActive_record_self _ _ _ _ hwin
      have hsp : onDataReceived
          { st with transcripts := appendCapped st.transcripts ⟨role, text⟩,
                    hashes := recordHash st.hashes (contentHash role text) now1 }
          now2 aname (DataEvent.speech text (some role) none)
          = { st with transcripts := appendCapped st.transcripts ⟨role, text⟩,
                      hashes := recordHash st.hashes (contentHash role text) now1 } :=
        speechBranch_hashHit _ now2 aname role text hrole htext hk2
      rw [hsp]
      exact hcount1

theorem dedup_idempotence_witness :
    (("Trader" : String) ≠ "" ∧ ("Deal agreed" : String) ≠ ""
      ∧ trimString "Deal agreed" ≠ ""
      ∧ hashActive initialAppState.hashes (contentHash "Trader" "Deal agreed") 0 = false
      ∧ countEntries initialAppState.transcripts "Trader" "Deal agreed" = 0
      ∧ (0 : Nat) ≤ 1000 ∧ (1000 : Nat) < 0 + 5000)
    ∧ countEntries (handleTranscription
        (onDataReceived initialAppState 0 "" (DataEvent.speech "Deal agreed" (some "Trader") none))
        1000 "Trader" [⟨true, "Deal agreed"⟩]).transcripts "Trader" "Deal agreed" = 1 :=
  ⟨⟨by decide, by decide, by decide, by decide, by decide, by decide, by decide⟩,
   (dedup_idempotence initialAppState 0 1000 "Trader" "Deal agreed" ""
     (by decide) (by decide) (by decide) (by decide) (by decide) (by decide) (by decide)).1⟩

/-- Claim C5 counterexample: the same (role, text) utterance submitted
twice through the reliable SPEECH path more than 5 seconds apart yields
only one transcript entry, not two — the expired dedup key admits the
second packet, but the buffer-wide exact (agent, text) check in the
SPEECH branch suppresses it while the first entry is still buffered. -/
theorem dedup_expiry_counterexample :
    countEntries (onDataReceived
        (onDataReceived initialAppState 0 "" (DataEvent.speech "Hello there" (some "Halima") none))
        6000 "" (DataEvent.speech "Hello there" (some "Halima") none)).transcripts
      "Halima" "Hello there" = 1
    ∧ ¬ countEntries (onDataReceived
        (onDataReceived initialAppState 0 "" (DataEvent.speech "Hello there" (some "Halima") none))
        6000 "" (DataEvent.speech "Hello there" (some "Halima") none)).transcripts
      "Halima" "Hello there" = 2 := by
  refine ⟨by decide, by decide⟩

/-- Claim C5 (amended): with more than 5 seconds between the two arrivals
the dedup key has expired, so the captioning path appends both submissions
(two entries); the reliable SPEECH path additionally checks the live buffer
for an entry with the same role and identical text and therefore appends
the second submission only when the first entry is no longer buffered —
here, with the first entry still present, it keeps a single entry while
still re-recording the key. -/
theorem dedup_expiry_amended (st : AppState) (now1 now2 : Nat) (role text aname : String)
    (hrole : role ≠ "") (htext : text ≠ "") (htrim : trimString text ≠ "")
    (ha : (role == "Halima" || role == "Alex") = false)
    (hkey : hashActive st.hashes (contentHash role text) now1 = false)
    (hbuf : countEntries st.transcripts role text = 0)
    (hgap : now1 + 5000 ≤ now2) :
    countEntries (handleTranscription
        (handleTranscription st now1 role [⟨true, text⟩])
        now2 role [⟨true, text⟩]).transcripts role text = 2
    ∧ countEntries (onDataReceived
        (onDataReceived st now1 aname (DataEvent.speech text (some role) none))
        now2 aname (DataEvent.speech text (some role) none)).transcripts role text = 1 := by
  have hm : matchesRT (Entry.mk role text) role text = true := by simp [matchesRT]
  have h12 : now1 ≤ now2 := by omega
  have hkey2 : hashActive st.hashes (contentHash role text) now2 = false :=
    hashActive_mono _ _ _ _ h12 hkey
  have hkeyrec : hashActive (recordHash st.hashes (contentHash role text) now1)
      (contentHash role text) now2 = false :=
    hashActive_record_expired _ _ _ _ hgap hkey2
  have hcount1 : countEntries (appendCapped st.transcripts ⟨role, text⟩) role text = 1 :=
    countEntries_appendCapped_of_zero _ _ _ _ hbuf hm
  constructor
  · have hcap1 : handleTranscription st now1 role [⟨true, text⟩]
        = { st with transcripts := appendCapped st.transcripts ⟨role, text⟩,
                    hashes := recordHash st.hashes (contentHash role text) now1 } :=
      handleTranscription_single_append st now1 role text ha htrim hkey
    rw [hcap1]
    have hcap2 : handleTranscription
        { st with transcripts := appendCapped st.transcripts ⟨role, text⟩,
                  hashes := recordHash st.hashes (contentHash role text) now1 }
        now2 role [⟨true, text⟩]
        = { st with
              transcripts := appendCapped (appendCapped st.transcripts ⟨role, text⟩) ⟨role, text⟩,
              hashes := recordHash (recordHash st.hashes (contentHash role text) now1)
                (contentHash role text) now2 } :=
      handleTranscription_single_append _ now2 role text ha htrim hkeyrec
    rw [hcap2]
    exact countEntries_appendCapped_twice _ _ _ _ _ hbuf hm hm
  · have hsp1 : onDataReceived st now1 aname (DataEvent.speech text (some role) none)
        = { st with transcripts := appendCapped st.transcripts ⟨role, text⟩,
                    hashes := recordHash st.hashes (contentHash role text) now1 } :=
      speechBranch_append st now1 aname role text hrole htext hkey hbuf
    rw [hsp1]
    have hbuf1 : countEntries (appendCapped st.transcripts ⟨role, text⟩) role text ≠ 0 := by
      rw [hcount1]; exact one_ne_zero
    have hsp2 : onDataReceived
        { st with transcripts := appendCapped st.transcripts ⟨role, text⟩,
                  hashes := recordHash st.hashes (contentHash role text) now1 }
        now2 aname (DataEvent.speech text (some role) none)
        = { st with
              transcripts := appendCapped st.transcripts ⟨role, text⟩,
              hashes := recordHash (recordHash st.hashes (contentHash role text) now1)
                (contentHash role text) now2 } :=
      speechBranch_bufferHit _ now2 aname role text hrole htext hkeyrec hbuf1
    rw [hsp2]
    exact hcount1

theorem dedup_expiry_amended_witness :
    (("Trader" : String) ≠ "" ∧ (("Trader" == "Halima") || ("Trader" == "Alex")) = false
      ∧ (0 : Nat) + 5000 ≤ 6000)
    ∧ countEntries (handleTranscription
        (handleTranscription initialAppState 0 "Trader" [⟨true, "We agree"⟩])
        6000 "Trader" [⟨true, "We agree"⟩]).transcripts "Trader" "We agree" = 2 :=
  ⟨⟨by decide, by decide, by decide⟩,
   (dedup_expiry_amended initialAppState 0 6000 "Trader" "We agree" ""
     (by decide) (by decide) (by decide) (by decide) (by decide) (by decide) (by decide)).1⟩

end Harvest
